import Mathlib

/-!
Verification of the `sqlx-simple-migrator` migration runner.

The runner (src/lib.rs) is shallowly embedded: the database driver (sqlx /
PostgreSQL, an external collaborator) is a parameter `Driver σ` whose
operations act on an abstract database state `σ` and may fail with a driver
error (a `String`).  `Migration.perform` and `Migration.undo` are translated
statement-for-statement from the source; both return the resulting database
state (unchanged on failure, since a dropped sqlx transaction is rolled back),
an optional `MigrationError`, and a trace of the driver calls they issued.
`Migration.run_all` is translated from the source loop and additionally
returns its final applied-name tracking set and the sequence of
undo/perform operations it issued, so that ordering properties are statable.

`MemDb`/`pgDriver` is a concrete in-memory model of the database collaborator
contract (spec §6) used to instantiate the parametric theorems.
-/

/-- Execution mode of a migration (src/lib.rs, `enum Mode`). -/
inductive Mode where
  | Stable
  | Debug
  | NuclearDebug
deriving DecidableEq, Repr

/-- `impl Default for Mode` returns `Mode::Stable`. -/
def Mode.default : Mode := Mode.Stable

/-- A single database migration (src/lib.rs, `struct Migration`). -/
structure Migration where
  name : String
  up : List String
  down : List String
  mode : Mode
deriving DecidableEq, Repr

/-- `#[derive(Default)]` for `Migration`: empty strings/lists, `Stable` mode. -/
def Migration.mkDefault : Migration :=
  { name := "", up := [], down := [], mode := Mode.default }

/-- `Migration::new(name)`: the default migration with the given name. -/
def Migration.new (name : String) : Migration :=
  { Migration.mkDefault with name := name }

/-- `Migration::with_up`: push the statement onto the end of `up`. -/
def Migration.with_up (m : Migration) (up : String) : Migration :=
  { m with up := m.up ++ [up] }

/-- `Migration::with_down`: insert the statement at index 0 of `down`. -/
def Migration.with_down (m : Migration) (down : String) : Migration :=
  { m with down := down :: m.down }

/-- `Migration::debug` (in a `debug_assertions` build): set `Debug` mode. -/
def Migration.debug (m : Migration) : Migration :=
  { m with mode := Mode.Debug }

/-- `Migration::nuclear_debug` (in a `debug_assertions` build): set
`NuclearDebug` mode. -/
def Migration.nuclear_debug (m : Migration) : Migration :=
  { m with mode := Mode.NuclearDebug }

/-- An error executing a migration (src/lib.rs, `struct MigrationError`):
the failing statement and the underlying driver error. -/
structure MigrationError where
  statement : String
  error : String
deriving DecidableEq, Repr

namespace migration_0_initial

/-- `migration_0_initial::NAME`. -/
def NAME : String := "initial"

/-- The raw `CREATE TABLE` statement of the bootstrap migration
(src/migration_0_initial.rs), whitespace included. -/
def createTableStmt : String :=
  "\n        CREATE TABLE migrations (\n            name TEXT NOT NULL PRIMARY KEY,\n            executed_at TIMESTAMPTZ NOT NULL DEFAULT now()\n        )\n        "

/-- The raw `DROP TABLE` statement of the bootstrap migration
(src/migration_0_initial.rs), whitespace included. -/
def dropTableStmt : String :=
  "\n        DROP TABLE IF EXISTS migrations\n        "

/-- `migration_0_initial::migration()`. -/
def migration : Migration :=
  ((Migration.new NAME).with_up createTableStmt).with_down dropTableStmt

end migration_0_initial

/-- The database collaborator (spec §6): transaction begin, statement
execution inside the transaction, the runner's own parameterized ledger
insert/delete, commit, and the bulk fetch of applied names.  Every operation
may fail with a driver error.  `begin` yields the transaction view of the
state; `commit` publishes a transaction state as the new database state; a
transaction state that is never committed is discarded (sqlx rollback-on-drop),
so the database state is unchanged on failure. -/
structure Driver (σ : Type) where
  begin : σ → Except String σ
  exec : String → σ → Except String σ
  insertName : String → σ → Except String σ
  deleteName : String → σ → Except String σ
  commit : σ → Except String σ
  queryNames : σ → Except String (List String)

/-- A driver call issued by `perform`/`undo`, in issue order. -/
inductive Ev where
  | beginEv
  | execEv (stmt : String)
  | insertEv (name : String)
  | deleteEv (name : String)
  | commitEv
deriving DecidableEq, Repr

/-- Run a list of statements in order inside the transaction (the
`for statement in self.up.iter()` / `self.down.iter()` loops with
`migration_try!`): stop at the first failure, reporting the failing
statement, and record every attempted statement. -/
def execStmtsTr {σ : Type} (d : Driver σ) :
    List String → σ → Option MigrationError × σ × List Ev
  | [], tx => (none, tx, [])
  | s :: rest, tx =>
    match d.exec s tx with
    | .error e => (some { statement := s, error := e }, tx, [Ev.execEv s])
    | .ok tx' =>
      match execStmtsTr d rest tx' with
      | (r, t, evs) => (r, t, Ev.execEv s :: evs)

/-- `Migration::perform`: begin a transaction, run every `up` statement in
order, insert the ledger record, commit.  On any failure the transaction is
dropped (state reverts to `db`) and a `MigrationError` naming the failing
statement is returned. -/
def Migration.perform {σ : Type} (m : Migration) (d : Driver σ) (db : σ) :
    Option MigrationError × σ × List Ev :=
  match d.begin db with
  | .error e => (some { statement := "BEGIN TRANSACTION", error := e }, db, [Ev.beginEv])
  | .ok tx =>
    match execStmtsTr d m.up tx with
    | (some err, _, evs) => (some err, db, Ev.beginEv :: evs)
    | (none, tx1, evs) =>
      match d.insertName m.name tx1 with
      | .error e =>
        (some { statement := "INSERT INTO migrations (name) VALUES ($1)", error := e },
          db, Ev.beginEv :: (evs ++ [Ev.insertEv m.name]))
      | .ok tx2 =>
        match d.commit tx2 with
        | .error e =>
          (some { statement := "COMMIT TRANSACTION", error := e },
            db, Ev.beginEv :: (evs ++ [Ev.insertEv m.name, Ev.commitEv]))
        | .ok db' =>
          (none, db', Ev.beginEv :: (evs ++ [Ev.insertEv m.name, Ev.commitEv]))

/-- `Migration::undo`: begin a transaction, run every `down` statement in
order, delete the ledger record unless this is the bootstrap migration,
commit.  Same transactional failure contract as `perform`. -/
def Migration.undo {σ : Type} (m : Migration) (d : Driver σ) (db : σ) :
    Option MigrationError × σ × List Ev :=
  match d.begin db with
  | .error e => (some { statement := "BEGIN TRANSACTION", error := e }, db, [Ev.beginEv])
  | .ok tx =>
    match execStmtsTr d m.down tx with
    | (some err, _, evs) => (some err, db, Ev.beginEv :: evs)
    | (none, tx1, evs) =>
      if m.name ≠ migration_0_initial.NAME then
        match d.deleteName m.name tx1 with
        | .error e =>
          (some { statement := "DELETE FROM migrations WHERE name = $1", error := e },
            db, Ev.beginEv :: (evs ++ [Ev.deleteEv m.name]))
        | .ok tx2 =>
          match d.commit tx2 with
          | .error e =>
            (some { statement := "COMMIT TRANSACTION", error := e },
              db, Ev.beginEv :: (evs ++ [Ev.deleteEv m.name, Ev.commitEv]))
          | .ok db' =>
            (none, db', Ev.beginEv :: (evs ++ [Ev.deleteEv m.name, Ev.commitEv]))
      else
        match d.commit tx1 with
        | .error e =>
          (some { statement := "COMMIT TRANSACTION", error := e },
            db, Ev.beginEv :: (evs ++ [Ev.commitEv]))
        | .ok db' =>
          (none, db', Ev.beginEv :: (evs ++ [Ev.commitEv]))

/-- An undo/perform operation issued by `run_all`, in issue order (the
migration is identified by its name). -/
inductive Op where
  | undoOp (name : String)
  | performOp (name : String)
deriving DecidableEq, Repr

/-- `HashSet::remove` on the applied-name tracking set, as a list with set
membership semantics. -/
def removeName (n : String) (applied : List String) : List String :=
  applied.filter (fun x => decide (x ≠ n))

/-- The nuclear rollback loop of `run_all`
(`for migration in reverse_migrations { migration.undo(&pool).await?;
performed_migrations.remove(&migration.name); }`): undo each migration of the
given (already reversed) list unconditionally, removing its name from the
tracking set, stopping at the first failure. -/
def nuclearDown {σ : Type} (d : Driver σ) :
    List Migration → List String → σ → Option MigrationError × List String × σ × List Op
  | [], applied, db => (none, applied, db, [])
  | m :: rest, applied, db =>
    match m.undo d db with
    | (some e, s, _) => (some e, applied, s, [Op.undoOp m.name])
    | (none, db1, _) =>
      match nuclearDown d rest (removeName m.name applied) db1 with
      | (r, a, s, t) => (r, a, s, Op.undoOp m.name :: t)

/-- The nuclear re-apply loop of `run_all`
(`for migration in migrations { migration.perform(&pool).await?; }`): perform
each migration unconditionally, stopping at the first failure. -/
def nuclearUp {σ : Type} (d : Driver σ) :
    List Migration → σ → Option MigrationError × σ × List Op
  | [], db => (none, db, [])
  | m :: rest, db =>
    match m.perform d db with
    | (some e, s, _) => (some e, s, [Op.performOp m.name])
    | (none, db1, _) =>
      match nuclearUp d rest db1 with
      | (r, s, t) => (r, s, Op.performOp m.name :: t)

/-- The normal-path loop of `run_all`: for each migration in list order,
first undo it and drop it from the tracking set when its mode is `Debug`
(propagating an undo failure), then perform it when its name is not in the
tracking set (propagating a perform failure). -/
def normalLoop {σ : Type} (d : Driver σ) :
    List Migration → List String → σ → Option MigrationError × List String × σ × List Op
  | [], applied, db => (none, applied, db, [])
  | m :: rest, applied, db =>
    match (if m.mode = Mode.Debug then
            match m.undo d db with
            | (some e, s, _) => (some e, applied, s, [Op.undoOp m.name])
            | (none, s, _) => (none, removeName m.name applied, s, [Op.undoOp m.name])
          else (none, applied, db, [])) with
    | (some e, a, s, t) => (some e, a, s, t)
    | (none, applied1, db1, t1) =>
      if applied1.contains m.name then
        match normalLoop d rest applied1 db1 with
        | (r, a, s, t) => (r, a, s, t1 ++ t)
      else
        match m.perform d db1 with
        | (some e, s, _) => (some e, applied1, s, t1 ++ [Op.performOp m.name])
        | (none, db2, _) =>
          match normalLoop d rest applied1 db2 with
          | (r, a, s, t) => (r, a, s, t1 ++ (Op.performOp m.name :: t))

/-- The body of `run_all` after the initial ledger read: branch on whether
any migration in the full list is in `NuclearDebug` mode
(`migrations.iter().find(|m| Mode::NuclearDebug == m.mode)`); on the nuclear
path undo the whole reversed list then perform the whole list, otherwise run
the normal loop. -/
def runFromApplied {σ : Type} (d : Driver σ) (migrations : List Migration)
    (applied : List String) (db : σ) :
    Option MigrationError × List String × σ × List Op :=
  if migrations.any (fun m => decide (m.mode = Mode.NuclearDebug)) then
    match nuclearDown d migrations.reverse applied db with
    | (some e, a, s, t) => (some e, a, s, t)
    | (none, a1, db1, t1) =>
      match nuclearUp d migrations db1 with
      | (r, s, t2) => (r, a1, s, t1 ++ t2)
  else
    normalLoop d migrations applied db

/-- The initial ledger read of `run_all`
(`sqlx::query("SELECT name FROM migrations") ... .unwrap_or_default()`):
collect the recorded names, treating any query error as the empty set. -/
def appliedInit {σ : Type} (d : Driver σ) (db : σ) : List String :=
  match d.queryNames db with
  | .ok ns => ns
  | .error _ => []

/-- `Migration::run_all`: prepend the bootstrap migration to the supplied
list, read the applied-name set with failure tolerance, and run the nuclear
or normal path.  Besides the `Result` (modelled as `Option MigrationError`),
the embedding returns the final tracking set, the final database state, and
the trace of undo/perform operations issued. -/
def Migration.run_all {σ : Type} (d : Driver σ) (supplied_migrations : List Migration)
    (db : σ) : Option MigrationError × List String × σ × List Op :=
  runFromApplied d (migration_0_initial.migration :: supplied_migrations)
    (appliedInit d db) db

/-- A concrete in-memory model of the PostgreSQL collaborator (spec §6):
whether the `migrations` ledger table exists, its rows (the recorded names,
in insertion order), and a log of all other executed statements standing for
the rest of the schema. -/
structure MemDb where
  hasTable : Bool
  ledger : List String
  log : List String
deriving DecidableEq, Repr

/-- The in-memory driver over `MemDb`.  The two raw statements the runner
itself owns (the bootstrap's CREATE/DROP of the ledger table) act on the
table; every other statement is recorded in the log.  The ledger insert
enforces the primary key, and insert/delete/select fail when the ledger
table does not exist. -/
def pgDriver : Driver MemDb where
  begin := fun db => .ok db
  exec := fun s db =>
    if s = migration_0_initial.createTableStmt then
      if db.hasTable then .error "relation migrations already exists"
      else .ok { db with hasTable := true, ledger := [] }
    else if s = migration_0_initial.dropTableStmt then
      .ok { db with hasTable := false, ledger := [] }
    else .ok { db with log := db.log ++ [s] }
  insertName := fun n db =>
    if db.hasTable then
      if db.ledger.contains n then .error "duplicate key violates unique constraint"
      else .ok { db with ledger := db.ledger ++ [n] }
    else .error "relation migrations does not exist"
  deleteName := fun n db =>
    if db.hasTable then .ok { db with ledger := removeName n db.ledger }
    else .error "relation migrations does not exist"
  commit := fun db => .ok db
  queryNames := fun db =>
    if db.hasTable then .ok db.ledger else .error "relation migrations does not exist"

/-- A fresh database: no ledger table, nothing recorded. -/
def freshDb : MemDb := { hasTable := false, ledger := [], log := [] }

/-! ### Basic trace lemmas -/

/-- A successful statement loop executes exactly the given statements, in
order. -/
lemma execStmtsTr_ok_trace {σ : Type} (d : Driver σ) :
    ∀ (ss : List String) (tx tx' : σ) (evs : List Ev),
      execStmtsTr d ss tx = (none, tx', evs) → evs = ss.map Ev.execEv := by
  intro ss
  induction ss with
  | nil => intro tx tx' evs h; simp [execStmtsTr] at h; simp [h]
  | cons s rest ih =>
    intro tx tx' evs h
    cases hx : d.exec s tx with
    | error e => simp only [execStmtsTr, hx] at h; simp at h
    | ok tx2 =>
      simp only [execStmtsTr, hx] at h
      rcases hrec : execStmtsTr d rest tx2 with ⟨r, t, evs'⟩
      rw [hrec] at h
      simp only [Prod.mk.injEq] at h
      obtain ⟨hr, _, hevs⟩ := h
      subst hr
      subst hevs
      simp [ih tx2 t evs' hrec]

/-- Every event recorded by the statement loop is a statement execution. -/
lemma execStmtsTr_events {σ : Type} (d : Driver σ) :
    ∀ (ss : List String) (tx : σ) (ev : Ev), ev ∈ (execStmtsTr d ss tx).2.2 →
      ∃ s, ev = Ev.execEv s := by
  intro ss
  induction ss with
  | nil => intro tx ev h; simp [execStmtsTr] at h
  | cons s rest ih =>
    intro tx ev h
    cases hx : d.exec s tx with
    | error e => simp only [execStmtsTr, hx] at h; simp at h; exact ⟨s, h⟩
    | ok tx2 =>
      simp only [execStmtsTr, hx] at h
      rcases hrec : execStmtsTr d rest tx2 with ⟨r, t, evs'⟩
      rw [hrec] at h
      simp at h
      rcases h with h | h
      · exact ⟨s, h⟩
      · exact ih tx2 ev (by rw [hrec]; exact h)

/-- The statements executed in a driver-call trace, in order. -/
def execsOf (t : List Ev) : List String :=
  t.filterMap (fun ev => match ev with | Ev.execEv s => some s | _ => none)

lemma execsOf_map_execEv (l : List String) : execsOf (l.map Ev.execEv) = l := by
  induction l with
  | nil => rfl
  | cons s rest ih => simp [execsOf] at ih ⊢; exact ih

/-- Trace of a successful `undo`: begin, the `down` statements in order, the
ledger delete exactly when the migration is not the bootstrap one, commit. -/
lemma undo_ok_trace {σ : Type} (d : Driver σ) (m : Migration) (db db' : σ) (t : List Ev)
    (h : m.undo d db = (none, db', t)) :
    t = Ev.beginEv :: (m.down.map Ev.execEv ++
      (if m.name ≠ migration_0_initial.NAME then [Ev.deleteEv m.name, Ev.commitEv]
       else [Ev.commitEv])) := by
  cases hb : d.begin db with
  | error e => simp only [Migration.undo, hb] at h; simp at h
  | ok tx =>
    simp only [Migration.undo, hb] at h
    rcases hE : execStmtsTr d m.down tx with ⟨_ | err, tx1, evs⟩
    · rw [hE] at h
      have hevs : evs = m.down.map Ev.execEv := execStmtsTr_ok_trace d m.down tx tx1 evs hE
      subst hevs
      by_cases hn : m.name = migration_0_initial.NAME
      · simp only [hn, ne_eq, not_true_eq_false, if_false, ite_false] at h ⊢
        cases hc : d.commit tx1 with
        | error e => rw [hc] at h; simp at h
        | ok db2 => rw [hc] at h; simp at h; simp [h]
      · simp only [ne_eq, hn, not_false_eq_true, if_true, ite_true] at h ⊢
        cases hd : d.deleteName m.name tx1 with
        | error e => rw [hd] at h; simp at h
        | ok tx2 =>
          cases hc : d.commit tx2 with
          | error e => simp only [hd, hc] at h; simp at h
          | ok db2 => simp only [hd, hc] at h; simp at h; simp [h]
    · rw [hE] at h; simp at h

/-- Trace of a successful `perform`: begin, the `up` statements in order, the
ledger insert, commit. -/
lemma perform_ok_trace {σ : Type} (d : Driver σ) (m : Migration) (db db' : σ) (t : List Ev)
    (h : m.perform d db = (none, db', t)) :
    t = Ev.beginEv :: (m.up.map Ev.execEv ++ [Ev.insertEv m.name, Ev.commitEv]) := by
  cases hb : d.begin db with
  | error e => simp only [Migration.perform, hb] at h; simp at h
  | ok tx =>
    simp only [Migration.perform, hb] at h
    rcases hE : execStmtsTr d m.up tx with ⟨_ | err, tx1, evs⟩
    · rw [hE] at h
      have hevs : evs = m.up.map Ev.execEv := execStmtsTr_ok_trace d m.up tx tx1 evs hE
      subst hevs
      cases hi : d.insertName m.name tx1 with
      | error e => simp only [hi] at h; simp at h
      | ok tx2 =>
        cases hc : d.commit tx2 with
        | error e => simp only [hi, hc] at h; simp at h
        | ok db2 => simp only [hi, hc] at h; simp at h; simp [h]
    · rw [hE] at h; simp at h

/-- Running `pre ++ ss` when `pre` fully succeeds first runs `pre`, then `ss`
from the state `pre` reached, concatenating the traces. -/
lemma execStmtsTr_append {σ : Type} (d : Driver σ) :
    ∀ (pre ss : List String) (tx tx' : σ) (evs : List Ev),
      execStmtsTr d pre tx = (none, tx', evs) →
      execStmtsTr d (pre ++ ss) tx =
        ((execStmtsTr d ss tx').1, (execStmtsTr d ss tx').2.1,
          evs ++ (execStmtsTr d ss tx').2.2) := by
  intro pre
  induction pre with
  | nil =>
    intro ss tx tx' evs h
    simp [execStmtsTr] at h
    obtain ⟨h1, h2⟩ := h
    subst h1; subst h2
    simp
  | cons s rest ih =>
    intro ss tx tx' evs h
    cases hx : d.exec s tx with
    | error e => simp only [execStmtsTr, hx] at h; simp at h
    | ok tx2 =>
      simp only [execStmtsTr, hx] at h
      rcases hrec : execStmtsTr d rest tx2 with ⟨r, t, evs'⟩
      rw [hrec] at h
      simp only [Prod.mk.injEq] at h
      obtain ⟨hr, ht, hevs⟩ := h
      subst hr; subst ht; subst hevs
      simp only [List.cons_append, execStmtsTr, hx, List.append_eq]
      rw [ih ss tx2 t evs' hrec]

/-- `perform` on a failing `begin`. -/
lemma perform_begin_err {σ : Type} (d : Driver σ) (m : Migration) (db : σ) (e : String)
    (hb : d.begin db = .error e) :
    m.perform d db = (some { statement := "BEGIN TRANSACTION", error := e }, db, [Ev.beginEv]) := by
  simp [Migration.perform, hb]

/-- `perform` when an `up` statement fails: the error names that statement
and the underlying driver error, the database state is unchanged, and no
statement after the failing one is attempted. -/
lemma perform_up_err {σ : Type} (d : Driver σ) (m : Migration) (db tx tx' : σ)
    (pre post : List String) (s e : String) (evs : List Ev)
    (hup : m.up = pre ++ s :: post)
    (hb : d.begin db = .ok tx)
    (hpre : execStmtsTr d pre tx = (none, tx', evs))
    (hs : d.exec s tx' = .error e) :
    m.perform d db =
      (some { statement := s, error := e }, db, Ev.beginEv :: (evs ++ [Ev.execEv s])) := by
  have hfail : execStmtsTr d m.up tx =
      (some { statement := s, error := e }, tx', evs ++ [Ev.execEv s]) := by
    rw [hup, execStmtsTr_append d pre (s :: post) tx tx' evs hpre]
    simp [execStmtsTr, hs]
  simp [Migration.perform, hb, hfail]

/-- `perform` when the ledger insert fails. -/
lemma perform_insert_err {σ : Type} (d : Driver σ) (m : Migration) (db tx tx1 : σ)
    (e : String) (evs : List Ev)
    (hb : d.begin db = .ok tx)
    (hE : execStmtsTr d m.up tx = (none, tx1, evs))
    (hi : d.insertName m.name tx1 = .error e) :
    m.perform d db =
      (some { statement := "INSERT INTO migrations (name) VALUES ($1)", error := e },
        db, Ev.beginEv :: (evs ++ [Ev.insertEv m.name])) := by
  simp [Migration.perform, hb, hE, hi]

/-- `perform` when the commit fails. -/
lemma perform_commit_err {σ : Type} (d : Driver σ) (m : Migration) (db tx tx1 tx2 : σ)
    (e : String) (evs : List Ev)
    (hb : d.begin db = .ok tx)
    (hE : execStmtsTr d m.up tx = (none, tx1, evs))
    (hi : d.insertName m.name tx1 = .ok tx2)
    (hc : d.commit tx2 = .error e) :
    m.perform d db =
      (some { statement := "COMMIT TRANSACTION", error := e },
        db, Ev.beginEv :: (evs ++ [Ev.insertEv m.name, Ev.commitEv])) := by
  simp [Migration.perform, hb, hE, hi, hc]

/-- `perform` when everything succeeds. -/
lemma perform_ok {σ : Type} (d : Driver σ) (m : Migration) (db tx tx1 tx2 db' : σ)
    (evs : List Ev)
    (hb : d.begin db = .ok tx)
    (hE : execStmtsTr d m.up tx = (none, tx1, evs))
    (hi : d.insertName m.name tx1 = .ok tx2)
    (hc : d.commit tx2 = .ok db') :
    m.perform d db = (none, db', Ev.beginEv :: (evs ++ [Ev.insertEv m.name, Ev.commitEv])) := by
  simp [Migration.perform, hb, hE, hi, hc]

/-- A `Debug` migration whose rollback fails aborts the normal loop at once:
the error is returned, the tracking set and database are left as they were,
and no further migration is processed. -/
lemma normalLoop_debug_undo_err {σ : Type} (d : Driver σ) (m : Migration)
    (rest : List Migration) (applied : List String) (db s : σ) (err : MigrationError)
    (ev : List Ev) (hm : m.mode = Mode.Debug) (hu : m.undo d db = (some err, s, ev)) :
    normalLoop d (m :: rest) applied db = (some err, applied, s, [Op.undoOp m.name]) := by
  simp [normalLoop, hm, hu]

/-- A pending migration whose apply fails aborts the normal loop at once. -/
lemma normalLoop_perform_err {σ : Type} (d : Driver σ) (m : Migration)
    (rest : List Migration) (applied : List String) (db s : σ) (err : MigrationError)
    (ev : List Ev) (hm : m.mode ≠ Mode.Debug) (hc : applied.contains m.name = false)
    (hp : m.perform d db = (some err, s, ev)) :
    normalLoop d (m :: rest) applied db = (some err, applied, s, [Op.performOp m.name]) := by
  simp at hc
  simp [normalLoop, hm, hc, hp]

/-- A failing rollback aborts the nuclear rollback loop at once. -/
lemma nuclearDown_undo_err {σ : Type} (d : Driver σ) (m : Migration)
    (rest : List Migration) (applied : List String) (db s : σ) (err : MigrationError)
    (ev : List Ev) (hu : m.undo d db = (some err, s, ev)) :
    nuclearDown d (m :: rest) applied db = (some err, applied, s, [Op.undoOp m.name]) := by
  simp [nuclearDown, hu]

/-- A failing apply aborts the nuclear re-apply loop at once. -/
lemma nuclearUp_perform_err {σ : Type} (d : Driver σ) (m : Migration)
    (rest : List Migration) (db s : σ) (err : MigrationError) (ev : List Ev)
    (hp : m.perform d db = (some err, s, ev)) :
    nuclearUp d (m :: rest) db = (some err, s, [Op.performOp m.name]) := by
  simp [nuclearUp, hp]

/-- Any ledger delete issued by `undo` targets this migration's own name, and
only happens when that name is not the bootstrap name. -/
lemma undo_events_delete {σ : Type} (d : Driver σ) (m : Migration) (db : σ) (n : String)
    (h : Ev.deleteEv n ∈ (m.undo d db).2.2) :
    n = m.name ∧ m.name ≠ migration_0_initial.NAME := by
  have hexecs : ∀ {evs : List Ev}, (∀ ev ∈ evs, ∃ s, ev = Ev.execEv s) →
      Ev.deleteEv n ∈ evs → False := by
    intro evs hall hmem
    obtain ⟨s, hs⟩ := hall _ hmem
    exact Ev.noConfusion hs
  cases hb : d.begin db with
  | error e => simp only [Migration.undo, hb] at h; simp at h
  | ok tx =>
    simp only [Migration.undo, hb] at h
    rcases hE : execStmtsTr d m.down tx with ⟨r, tx1, evs⟩
    rw [hE] at h
    have hevs : ∀ ev ∈ evs, ∃ s, ev = Ev.execEv s := by
      intro ev hm
      exact execStmtsTr_events d m.down tx ev (by rw [hE]; exact hm)
    cases r with
    | some err =>
      simp at h
      exact absurd h (fun hm => hexecs hevs hm)
    | none =>
      by_cases hn : m.name = migration_0_initial.NAME
      · simp only [ne_eq, hn, not_true_eq_false, ite_false] at h
        cases hc : d.commit tx1 with
        | error e =>
          rw [hc] at h; simp at h
          exact absurd h (fun hm => hexecs hevs hm)
        | ok db2 =>
          rw [hc] at h; simp at h
          exact absurd h (fun hm => hexecs hevs hm)
      · simp only [ne_eq, hn, not_false_eq_true, ite_true] at h
        cases hd : d.deleteName m.name tx1 with
        | error e =>
          rw [hd] at h; simp at h
          rcases h with h | h
          · exact absurd h (fun hm => hexecs hevs hm)
          · exact ⟨h, hn⟩
        | ok tx2 =>
          cases hc : d.commit tx2 with
          | error e =>
            simp only [hd, hc] at h; simp at h
            rcases h with h | h
            · exact absurd h (fun hm => hexecs hevs hm)
            · exact ⟨h, hn⟩
          | ok db2 =>
            simp only [hd, hc] at h; simp at h
            rcases h with h | h
            · exact absurd h (fun hm => hexecs hevs hm)
            · exact ⟨h, hn⟩

/-- `execsOf` distributes over concatenation. -/
lemma execsOf_append (a b : List Ev) : execsOf (a ++ b) = execsOf a ++ execsOf b := by
  simp [execsOf]

lemma execsOf_cons_begin (x : List Ev) : execsOf (Ev.beginEv :: x) = execsOf x := by
  simp [execsOf]

/-- A successful `undo` executes exactly the migration's `down` statements,
in their stored order. -/
lemma undo_ok_execs {σ : Type} (d : Driver σ) (m : Migration) (db db' : σ) (t : List Ev)
    (h : m.undo d db = (none, db', t)) : execsOf t = m.down := by
  have ht := undo_ok_trace d m db db' t h
  subst ht
  rw [execsOf_cons_begin, execsOf_append, execsOf_map_execEv]
  by_cases hn : m.name = migration_0_initial.NAME <;> simp [hn, execsOf]

/-- C9 counterexample: the constructor does not enforce name non-emptiness —
`Migration::new("")` produces a migration whose name is the empty string. -/
theorem C9_empty_name_counterexample : (Migration.new "").name = "" := rfl

/-- C9 (amended): `Migration::new(name)` yields a migration with empty `up`
and `down` lists and `Stable` mode for every name — the name is passed through
verbatim and its non-emptiness is not checked by the constructor. -/
theorem C9_create_defaults (name : String) :
    Migration.new name = { name := name, up := [], down := [], mode := Mode.Stable } := rfl

/-- C4: `undo` issues a ledger delete only for this migration's own name and
only when that name is not the bootstrap name `"initial"`; on a successful
rollback the delete happens exactly when the name is not the bootstrap name.
In particular no rollback path (the nuclear one included, since it goes
through this same `undo`) ever deletes the bootstrap ledger record. -/
theorem C4_undo_deletes_iff_not_bootstrap {σ : Type} (d : Driver σ) (m : Migration) (db : σ) :
    (∀ n, Ev.deleteEv n ∈ (m.undo d db).2.2 → n = m.name ∧ m.name ≠ migration_0_initial.NAME) ∧
    Ev.deleteEv migration_0_initial.NAME ∉ (m.undo d db).2.2 ∧
    ((m.undo d db).1 = none →
      (Ev.deleteEv m.name ∈ (m.undo d db).2.2 ↔ m.name ≠ migration_0_initial.NAME)) := by
  refine ⟨fun n h => undo_events_delete d m db n h, ?_, ?_⟩
  · intro h
    obtain ⟨h1, h2⟩ := undo_events_delete d m db _ h
    exact h2 h1.symm
  · intro hok
    rcases hu : m.undo d db with ⟨r, db', t⟩
    rw [hu] at hok
    simp at hok
    subst hok
    have ht := undo_ok_trace d m db db' t hu
    subst ht
    by_cases hn : m.name = migration_0_initial.NAME
    · simp [hn]
    · simp [hn]

/-- C4 witness: rolling back a non-bootstrap migration on the in-memory
database does issue the delete of its own ledger record. -/
theorem C4_undo_deletes_iff_not_bootstrap_witness :
    Ev.deleteEv "A" ∈ (((Migration.new "A").with_down "d").undo pgDriver
      { hasTable := true, ledger := ["A"], log := [] }).2.2 :=
  ((C4_undo_deletes_iff_not_bootstrap pgDriver ((Migration.new "A").with_down "d")
      { hasTable := true, ledger := ["A"], log := [] }).2.2 (by decide)).mpr (by decide)

/-- A builder call on a migration: `with_up` or `with_down`. -/
inductive BCall where
  | bUp (s : String)
  | bDown (s : String)
deriving DecidableEq, Repr

/-- Apply one builder call. -/
def applyCall (m : Migration) : BCall → Migration
  | BCall.bUp s => m.with_up s
  | BCall.bDown s => m.with_down s

/-- Build a migration from `Migration::new(name)` by a sequence of builder
calls. -/
def buildCalls (name : String) (calls : List BCall) : Migration :=
  calls.foldl applyCall (Migration.new name)

/-- The `with_up` arguments of a call sequence, in call order. -/
def upsOf (calls : List BCall) : List String :=
  calls.filterMap (fun c => match c with | BCall.bUp s => some s | BCall.bDown _ => none)

/-- The `with_down` arguments of a call sequence, in call order. -/
def downsOf (calls : List BCall) : List String :=
  calls.filterMap (fun c => match c with | BCall.bDown s => some s | BCall.bUp _ => none)

lemma foldl_applyCall (calls : List BCall) : ∀ m : Migration,
    (calls.foldl applyCall m).name = m.name ∧
    (calls.foldl applyCall m).up = m.up ++ upsOf calls ∧
    (calls.foldl applyCall m).down = (downsOf calls).reverse ++ m.down := by
  induction calls with
  | nil => intro m; simp [upsOf, downsOf]
  | cons c rest ih =>
    intro m
    cases c with
    | bUp s =>
      obtain ⟨h1, h2, h3⟩ := ih (applyCall m (BCall.bUp s))
      refine ⟨?_, ?_, ?_⟩
      · simpa [applyCall, Migration.with_up] using h1
      · simp only [List.foldl_cons]
        rw [h2]
        simp [applyCall, Migration.with_up, upsOf, List.filterMap_cons]
      · simp only [List.foldl_cons]
        rw [h3]
        simp [applyCall, Migration.with_up, downsOf, List.filterMap_cons]
    | bDown s =>
      obtain ⟨h1, h2, h3⟩ := ih (applyCall m (BCall.bDown s))
      refine ⟨?_, ?_, ?_⟩
      · simpa [applyCall, Migration.with_down] using h1
      · simp only [List.foldl_cons]
        rw [h2]
        simp [applyCall, Migration.with_down, upsOf, List.filterMap_cons]
      · simp only [List.foldl_cons]
        rw [h3]
        simp [applyCall, Migration.with_down, downsOf, List.filterMap_cons]

/-- C8: over any sequence of builder calls, `with_up` accumulates the forward
statements in call order while `with_down` prepends, so the stored `down`
list — and hence the statement sequence a successful `undo` executes — is the
exact reverse of the `with_down` call order. -/
theorem C8_with_down_reverse_order (name : String) (calls : List BCall) :
    (buildCalls name calls).up = upsOf calls ∧
    (buildCalls name calls).down = (downsOf calls).reverse ∧
    ∀ {σ : Type} (d : Driver σ) (db db' : σ) (t : List Ev),
      (buildCalls name calls).undo d db = (none, db', t) →
      execsOf t = (downsOf calls).reverse := by
  obtain ⟨h1, h2, h3⟩ := foldl_applyCall calls (Migration.new name)
  refine ⟨?_, ?_, ?_⟩
  · simpa [buildCalls, Migration.new, Migration.mkDefault] using h2
  · simpa [buildCalls, Migration.new, Migration.mkDefault] using h3
  · intro σ d db db' t h
    rw [undo_ok_execs d _ db db' t h]
    simpa [buildCalls, Migration.new, Migration.mkDefault] using h3

/-- C8 witness: building with calls `with_down "d1"; with_up "u1";
with_down "d2"` stores `down = ["d2", "d1"]`, and a successful rollback on
the in-memory database executes exactly `"d2"` then `"d1"`. -/
theorem C8_with_down_reverse_order_witness :
    execsOf [Ev.beginEv, Ev.execEv "d2", Ev.execEv "d1", Ev.deleteEv "m", Ev.commitEv] =
      ["d2", "d1"] :=
  (C8_with_down_reverse_order "m" [BCall.bDown "d1", BCall.bUp "u1", BCall.bDown "d2"]).2.2
    pgDriver { hasTable := true, ledger := ["m"], log := [] }
    { hasTable := true, ledger := [], log := ["d2", "d1"] }
    [Ev.beginEv, Ev.execEv "d2", Ev.execEv "d1", Ev.deleteEv "m", Ev.commitEv]
    (by decide)

/-- C6: the initial ledger read is the one failure-tolerant spot.  Any error
from the `SELECT name FROM migrations` query makes `run_all` proceed with an
empty applied set instead of aborting (first conjunct); a successful query
seeds the set with the returned names (second conjunct); by contrast an undo
error in either loop aborts the run at once (third and fourth conjuncts; the
corresponding facts for apply errors are part of claim C3). -/
theorem C6_ledger_read_tolerant {σ : Type} (d : Driver σ) (supplied : List Migration)
    (db : σ) :
    (∀ e, d.queryNames db = .error e →
      Migration.run_all d supplied db =
        runFromApplied d (migration_0_initial.migration :: supplied) [] db) ∧
    (∀ ns, d.queryNames db = .ok ns →
      Migration.run_all d supplied db =
        runFromApplied d (migration_0_initial.migration :: supplied) ns db) ∧
    (∀ (m : Migration) (rest : List Migration) (applied : List String) (dbx s : σ)
        (err : MigrationError) (ev : List Ev), m.mode = Mode.Debug →
      m.undo d dbx = (some err, s, ev) →
      normalLoop d (m :: rest) applied dbx = (some err, applied, s, [Op.undoOp m.name])) ∧
    (∀ (m : Migration) (rest : List Migration) (applied : List String) (dbx s : σ)
        (err : MigrationError) (ev : List Ev),
      m.undo d dbx = (some err, s, ev) →
      nuclearDown d (m :: rest) applied dbx = (some err, applied, s, [Op.undoOp m.name])) := by
  refine ⟨?_, ?_, ?_, ?_⟩
  · intro e h; simp [Migration.run_all, appliedInit, h]
  · intro ns h; simp [Migration.run_all, appliedInit, h]
  · intro m rest applied dbx s err ev hm hu
    exact normalLoop_debug_undo_err d m rest applied dbx s err ev hm hu
  · intro m rest applied dbx s err ev hu
    exact nuclearDown_undo_err d m rest applied dbx s err ev hu

/-- C6 witness: on a fresh in-memory database the ledger query fails with
"relation migrations does not exist" and `run_all` continues with the empty
applied set. -/
theorem C6_ledger_read_tolerant_witness :
    Migration.run_all pgDriver [] freshDb =
      runFromApplied pgDriver [migration_0_initial.migration] [] freshDb :=
  (C6_ledger_read_tolerant pgDriver [] freshDb).1 "relation migrations does not exist" rfl

/-- The nuclear rollback loop never reads the applied tracking set: its
result, final database state and trace are the same for any two snapshots. -/
lemma nuclearDown_applied_indep {σ : Type} (d : Driver σ) :
    ∀ (ms : List Migration) (a a' : List String) (db : σ),
      (nuclearDown d ms a db).1 = (nuclearDown d ms a' db).1 ∧
      (nuclearDown d ms a db).2.2 = (nuclearDown d ms a' db).2.2 := by
  intro ms
  induction ms with
  | nil => intro a a' db; simp [nuclearDown]
  | cons m rest ih =>
    intro a a' db
    rcases hu : m.undo d db with ⟨r, s, ev⟩
    cases r with
    | some err => simp [nuclearDown, hu]
    | none =>
      rcases hq : nuclearDown d rest (removeName m.name a) s with ⟨r1, a1, s1, t1⟩
      rcases hq' : nuclearDown d rest (removeName m.name a') s with ⟨r1', a1', s1', t1'⟩
      have h1 := ih (removeName m.name a) (removeName m.name a') s
      rw [hq, hq'] at h1
      simp at h1
      simp [nuclearDown, hu, hq, hq', h1.1, h1.2.1, h1.2.2]

/-- C10: when some migration of the processed list is in `NuclearDebug`
mode, the run after the ledger read is independent of the snapshot it read:
for any two applied-set snapshots the result, the final database state and
the operation sequence coincide (the nuclear path never consults the set —
its removals are never observed). -/
theorem C10_nuclear_snapshot_independent {σ : Type} (d : Driver σ) (migs : List Migration)
    (a a' : List String) (db : σ)
    (h : migs.any (fun m => decide (m.mode = Mode.NuclearDebug)) = true) :
    (runFromApplied d migs a db).1 = (runFromApplied d migs a' db).1 ∧
    (runFromApplied d migs a db).2.2 = (runFromApplied d migs a' db).2.2 := by
  have hd := nuclearDown_applied_indep d migs.reverse a a' db
  rcases hq : nuclearDown d migs.reverse a db with ⟨r1, a1, s1, t1⟩
  rcases hq' : nuclearDown d migs.reverse a' db with ⟨r1', a1', s1', t1'⟩
  rw [hq, hq'] at hd
  simp at hd
  obtain ⟨hr, hs, ht⟩ := hd
  subst hr; subst hs; subst ht
  cases r1 with
  | some err => simp [runFromApplied, h, hq, hq']
  | none => simp [runFromApplied, h, hq, hq']

/-- C10 witness: a nuclear run on the fresh in-memory database behaves
identically for the snapshots `["x"]` and `[]`. -/
theorem C10_nuclear_snapshot_independent_witness :
    (runFromApplied pgDriver [(Migration.new "N").nuclear_debug] ["x"] freshDb).1 =
      (runFromApplied pgDriver [(Migration.new "N").nuclear_debug] [] freshDb).1 ∧
    (runFromApplied pgDriver [(Migration.new "N").nuclear_debug] ["x"] freshDb).2.2 =
      (runFromApplied pgDriver [(Migration.new "N").nuclear_debug] [] freshDb).2.2 :=
  C10_nuclear_snapshot_independent pgDriver [(Migration.new "N").nuclear_debug]
    ["x"] [] freshDb (by decide)

lemma mem_removeName (n x : String) (l : List String) :
    x ∈ removeName n l ↔ x ∈ l ∧ x ≠ n := by
  simp [removeName]

/-- A successful nuclear rollback loop undoes exactly the given migrations in
order, and ends with the tracking set shorn of all their names. -/
lemma nuclearDown_ok {σ : Type} (d : Driver σ) :
    ∀ (ms : List Migration) (a : List String) (db : σ) (a' : List String) (db' : σ)
      (t : List Op), nuclearDown d ms a db = (none, a', db', t) →
      t = ms.map (fun m => Op.undoOp m.name) ∧
      ∀ n, n ∈ a' ↔ (n ∈ a ∧ ∀ m ∈ ms, n ≠ m.name) := by
  intro ms
  induction ms with
  | nil =>
    intro a db a' db' t h
    simp [nuclearDown] at h
    obtain ⟨h1, h2⟩ := h
    subst h1
    simp [h2]
  | cons m rest ih =>
    intro a db a' db' t h
    rcases hu : m.undo d db with ⟨ru, su, evu⟩
    cases ru with
    | some err => simp only [nuclearDown, hu] at h; simp at h
    | none =>
      rcases hq : nuclearDown d rest (removeName m.name a) su with ⟨r1, a1, s1, t1⟩
      simp only [nuclearDown, hu, hq] at h
      simp only [Prod.mk.injEq] at h
      obtain ⟨hr, ha, _, htr⟩ := h
      subst hr; subst ha; subst htr
      obtain ⟨ht1, hmem⟩ := ih (removeName m.name a) su a1 s1 t1 hq
      subst ht1
      refine ⟨by simp, ?_⟩
      intro n
      rw [hmem n, mem_removeName]
      constructor
      · rintro ⟨⟨hl, hne⟩, hall⟩
        refine ⟨hl, ?_⟩
        intro m' hm'
        rcases List.mem_cons.mp hm' with h | h
        · rw [h]; exact hne
        · exact hall m' h
      · rintro ⟨hl, hall⟩
        exact ⟨⟨hl, hall m (List.mem_cons_self m rest)⟩,
          fun m' hm' => hall m' (List.mem_cons_of_mem m hm')⟩

/-- A successful nuclear re-apply loop performs exactly the given migrations
in order. -/
lemma nuclearUp_ok {σ : Type} (d : Driver σ) :
    ∀ (ms : List Migration) (db db' : σ) (t : List Op),
      nuclearUp d ms db = (none, db', t) → t = ms.map (fun m => Op.performOp m.name) := by
  intro ms
  induction ms with
  | nil => intro db db' t h; simp [nuclearUp] at h; simp [h]
  | cons m rest ih =>
    intro db db' t h
    rcases hp : m.perform d db with ⟨rp, sp, evp⟩
    cases rp with
    | some err => simp only [nuclearUp, hp] at h; simp at h
    | none =>
      rcases hq : nuclearUp d rest sp with ⟨r1, s1, t1⟩
      simp only [nuclearUp, hp, hq] at h
      simp only [Prod.mk.injEq] at h
      obtain ⟨hr, _, htr⟩ := h
      subst hr; subst htr
      simp [ih sp s1 t1 hq]

/-- C2: when any migration of the full list (bootstrap included) is in
`NuclearDebug` mode, a successful `run_all` first rolls back every migration
of the list in reverse list order, unconditionally, then applies every
migration in forward list order, unconditionally; each migration's name is
removed from the applied tracking set by the rollback sweep. -/
theorem C2_nuclear_rollback_all {σ : Type} (d : Driver σ) (supplied : List Migration)
    (db : σ)
    (hn : (migration_0_initial.migration :: supplied).any
        (fun m => decide (m.mode = Mode.NuclearDebug)) = true)
    (hok : (Migration.run_all d supplied db).1 = none) :
    (Migration.run_all d supplied db).2.2.2 =
      ((migration_0_initial.migration :: supplied).reverse.map (fun m => Op.undoOp m.name) ++
        (migration_0_initial.migration :: supplied).map (fun m => Op.performOp m.name)) ∧
    ∀ n, n ∈ (Migration.run_all d supplied db).2.1 ↔
      (n ∈ appliedInit d db ∧
        ∀ m ∈ (migration_0_initial.migration :: supplied), n ≠ m.name) := by
  have hrun : Migration.run_all d supplied db =
      runFromApplied d (migration_0_initial.migration :: supplied) (appliedInit d db) db :=
    rfl
  rw [hrun] at hok ⊢
  rcases hdown : nuclearDown d (migration_0_initial.migration :: supplied).reverse
      (appliedInit d db) db with ⟨r1, a1, s1, t1⟩
  cases r1 with
  | some err => simp only [runFromApplied, hn, if_true, hdown] at hok; simp at hok
  | none =>
    rcases hup : nuclearUp d (migration_0_initial.migration :: supplied) s1
      with ⟨r2, s2, t2⟩
    simp only [runFromApplied, hn, if_true, hdown, hup] at hok ⊢
    cases r2 with
    | some err => simp at hok
    | none =>
      obtain ⟨ht1, hmem⟩ := nuclearDown_ok d _ _ _ _ _ _ hdown
      have ht2 := nuclearUp_ok d _ _ _ _ hup
      subst ht1; subst ht2
      refine ⟨by simp, ?_⟩
      intro n
      simp only [List.mem_reverse] at hmem
      exact hmem n

/-- C2 witness: a nuclear run over bootstrap plus one nuclear migration
rolls back `A` then `initial`, then re-applies `initial` then `A`. -/
theorem C2_nuclear_rollback_all_witness :
    (Migration.run_all pgDriver
        [(((Migration.new "A").with_up "u").with_down "d").nuclear_debug]
        { hasTable := true, ledger := [], log := [] }).2.2.2 =
      [Op.undoOp "A", Op.undoOp "initial", Op.performOp "initial", Op.performOp "A"] :=
  (C2_nuclear_rollback_all pgDriver
    [(((Migration.new "A").with_up "u").with_down "d").nuclear_debug]
    { hasTable := true, ledger := [], log := [] } (by decide) (by decide)).1

/-- The operation sequence prescribed by the spec's normal path (§4.2), in
the spec's own words: process the migrations in list order; for each, if its
mode is `Debug` roll it back first and drop its name from the tracking set
regardless of whether it was recorded, then apply it if and only if its name
is not in the tracking set. -/
def specNormalOps : List Migration → List String → List Op
  | [], _ => []
  | m :: rest, applied =>
    let t1 := if m.mode = Mode.Debug then [Op.undoOp m.name] else []
    let applied1 := if m.mode = Mode.Debug then removeName m.name applied else applied
    if applied1.contains m.name then t1 ++ specNormalOps rest applied1
    else t1 ++ (Op.performOp m.name :: specNormalOps rest applied1)

/-- A successful normal loop issues exactly the operations the spec
prescribes. -/
lemma normalLoop_ok_trace {σ : Type} (d : Driver σ) :
    ∀ (ms : List Migration) (applied : List String) (db : σ) (a' : List String)
      (db' : σ) (t : List Op), normalLoop d ms applied db = (none, a', db', t) →
      t = specNormalOps ms applied := by
  intro ms
  induction ms with
  | nil =>
    intro applied db a' db' t h
    simp [normalLoop] at h
    simp [specNormalOps, h.2.2]
  | cons m rest ih =>
    intro applied db a' db' t h
    by_cases hm : m.mode = Mode.Debug
    · rcases hu : m.undo d db with ⟨ru, su, evu⟩
      cases ru with
      | some err => simp only [normalLoop, hm, if_true, hu] at h; simp at h
      | none =>
        cases hc : (removeName m.name applied).contains m.name with
        | true =>
          have hc2 : m.name ∈ removeName m.name applied := by simpa using hc
          rcases hr : normalLoop d rest (removeName m.name applied) su
            with ⟨rr, ar, sr, tr⟩
          simp only [normalLoop, hm, if_true, hu, hc, ite_true, hr] at h
          simp only [Prod.mk.injEq] at h
          obtain ⟨hrr, _, _, htr⟩ := h
          subst hrr; subst htr
          simp [specNormalOps, hm, hc, hc2, ih _ su ar sr tr hr]
        | false =>
          have hc2 : m.name ∉ removeName m.name applied := by simpa using hc
          rcases hp : m.perform d su with ⟨rp, sp, evp⟩
          cases rp with
          | some err =>
            simp only [normalLoop, hm, if_true, hu, hc, Bool.false_eq_true,
              ite_false, hp] at h
            simp at h
          | none =>
            rcases hr : normalLoop d rest (removeName m.name applied) sp
              with ⟨rr, ar, sr, tr⟩
            simp only [normalLoop, hm, if_true, hu, hc, Bool.false_eq_true,
              ite_false, hp, hr] at h
            simp only [Prod.mk.injEq] at h
            obtain ⟨hrr, _, _, htr⟩ := h
            subst hrr; subst htr
            simp [specNormalOps, hm, hc, hc2, ih _ sp ar sr tr hr]
    · cases hc : applied.contains m.name with
      | true =>
        have hc2 : m.name ∈ applied := by simpa using hc
        rcases hr : normalLoop d rest applied db with ⟨rr, ar, sr, tr⟩
        simp only [normalLoop, hm, if_false, hc, ite_true, hr] at h
        simp only [Prod.mk.injEq] at h
        obtain ⟨hrr, _, _, htr⟩ := h
        subst hrr; subst htr
        simp [specNormalOps, hm, hc, hc2, ih _ db ar sr tr hr]
      | false =>
        have hc2 : m.name ∉ applied := by simpa using hc
        rcases hp : m.perform d db with ⟨rp, sp, evp⟩
        cases rp with
        | some err =>
          simp only [normalLoop, hm, if_false, hc, Bool.false_eq_true,
            ite_false, hp] at h
          simp at h
        | none =>
          rcases hr : normalLoop d rest applied sp with ⟨rr, ar, sr, tr⟩
          simp only [normalLoop, hm, if_false, hc, Bool.false_eq_true,
            ite_false, hp, hr] at h
          simp only [Prod.mk.injEq] at h
          obtain ⟨hrr, _, _, htr⟩ := h
          subst hrr; subst htr
          simp [specNormalOps, hm, hc, hc2, ih _ sp ar sr tr hr]

/-- C1: when no migration of the full list is in `NuclearDebug` mode, a
successful `run_all` issues exactly the operation sequence the spec's normal
path prescribes over the list in order: a rollback first (with unconditional
tracking-set removal) for each `Debug` migration, then an apply if and only
if the migration's name is not in the tracking set. -/
theorem C1_normal_path_follows_spec {σ : Type} (d : Driver σ) (supplied : List Migration)
    (db : σ)
    (hnn : ∀ m ∈ migration_0_initial.migration :: supplied, m.mode ≠ Mode.NuclearDebug)
    (hok : (Migration.run_all d supplied db).1 = none) :
    (Migration.run_all d supplied db).2.2.2 =
      specNormalOps (migration_0_initial.migration :: supplied) (appliedInit d db) := by
  have hany : ((migration_0_initial.migration :: supplied).any
      (fun m => decide (m.mode = Mode.NuclearDebug))) = false := by
    rw [List.any_eq_false]
    intro m hm
    simpa using hnn m hm
  have hrun : Migration.run_all d supplied db =
      runFromApplied d (migration_0_initial.migration :: supplied) (appliedInit d db) db :=
    rfl
  rw [hrun] at hok ⊢
  rcases hr : normalLoop d (migration_0_initial.migration :: supplied)
      (appliedInit d db) db with ⟨r, a', db', t⟩
  simp only [runFromApplied, hany, Bool.false_eq_true, if_false, hr] at hok ⊢
  cases r with
  | some err => simp at hok
  | none => exact normalLoop_ok_trace d _ _ _ _ _ _ hr

/-- C1 witness: with `A` recorded as applied but marked `Debug`, the run
rolls `A` back and re-applies it, exactly as the spec prescribes. -/
theorem C1_normal_path_follows_spec_witness :
    (Migration.run_all pgDriver [(Migration.new "A").debug]
        { hasTable := true, ledger := ["initial", "A"], log := [] }).2.2.2 =
      specNormalOps (migration_0_initial.migration :: [(Migration.new "A").debug])
        (appliedInit pgDriver { hasTable := true, ledger := ["initial", "A"], log := [] }) :=
  C1_normal_path_follows_spec pgDriver [(Migration.new "A").debug]
    { hasTable := true, ledger := ["initial", "A"], log := [] } (by decide) (by decide)

/-- A small test driver over `Nat` states with controllable failures:
`begin` fails on state 9, executing `"BOOM"` fails, inserting the name
`"dup"` fails, and `commit` fails from state 5 upwards. -/
def testDriver : Driver Nat where
  begin := fun n => if n = 9 then .error "begin fail" else .ok n
  exec := fun s n => if s = "BOOM" then .error "boom" else .ok (n + 1)
  insertName := fun nm n => if nm = "dup" then .error "dup key" else .ok (n + 1)
  deleteName := fun _ n => .ok (n + 1)
  commit := fun n => if 5 ≤ n then .error "commit fail" else .ok n
  queryNames := fun n => if n = 0 then .error "no table" else .ok ["a"]

/-- C3: the apply protocol is transactional and error-propagating.  A failure
of `begin`, of any `up` statement, of the ledger insert, or of the commit
yields a `MigrationError` naming the failing statement and the driver error,
leaves the database state unchanged (`db` — nothing persists), and attempts
no statement past the failing one (the trace ends there); on full success the
statements run in order, then the insert, then the commit.  Both run loops
stop at a failing `perform`, returning its error with no further operations. -/
theorem C3_perform_transactional {σ : Type} (d : Driver σ) :
    (∀ (m : Migration) (db : σ) (e : String), d.begin db = .error e →
      m.perform d db =
        (some { statement := "BEGIN TRANSACTION", error := e }, db, [Ev.beginEv])) ∧
    (∀ (m : Migration) (db tx tx' : σ) (pre post : List String) (s e : String)
        (evs : List Ev),
      m.up = pre ++ s :: post → d.begin db = .ok tx →
      execStmtsTr d pre tx = (none, tx', evs) → d.exec s tx' = .error e →
      m.perform d db =
        (some { statement := s, error := e }, db, Ev.beginEv :: (evs ++ [Ev.execEv s]))) ∧
    (∀ (m : Migration) (db tx tx1 : σ) (e : String) (evs : List Ev),
      d.begin db = .ok tx → execStmtsTr d m.up tx = (none, tx1, evs) →
      d.insertName m.name tx1 = .error e →
      m.perform d db =
        (some { statement := "INSERT INTO migrations (name) VALUES ($1)", error := e },
          db, Ev.beginEv :: (evs ++ [Ev.insertEv m.name]))) ∧
    (∀ (m : Migration) (db tx tx1 tx2 : σ) (e : String) (evs : List Ev),
      d.begin db = .ok tx → execStmtsTr d m.up tx = (none, tx1, evs) →
      d.insertName m.name tx1 = .ok tx2 → d.commit tx2 = .error e →
      m.perform d db =
        (some { statement := "COMMIT TRANSACTION", error := e },
          db, Ev.beginEv :: (evs ++ [Ev.insertEv m.name, Ev.commitEv]))) ∧
    (∀ (m : Migration) (db tx tx1 tx2 db' : σ) (evs : List Ev),
      d.begin db = .ok tx → execStmtsTr d m.up tx = (none, tx1, evs) →
      d.insertName m.name tx1 = .ok tx2 → d.commit tx2 = .ok db' →
      m.perform d db = (none, db', Ev.beginEv :: (evs ++ [Ev.insertEv m.name, Ev.commitEv]))) ∧
    (∀ (m : Migration) (rest : List Migration) (applied : List String) (db s : σ)
        (err : MigrationError) (ev : List Ev), m.mode ≠ Mode.Debug →
      applied.contains m.name = false → m.perform d db = (some err, s, ev) →
      normalLoop d (m :: rest) applied db = (some err, applied, s, [Op.performOp m.name])) ∧
    (∀ (m : Migration) (rest : List Migration) (db s : σ) (err : MigrationError)
        (ev : List Ev), m.perform d db = (some err, s, ev) →
      nuclearUp d (m :: rest) db = (some err, s, [Op.performOp m.name])) := by
  refine ⟨?_, ?_, ?_, ?_, ?_, ?_, ?_⟩
  · intro m db e hb; exact perform_begin_err d m db e hb
  · intro m db tx tx' pre post s e evs hup hb hpre hs
    exact perform_up_err d m db tx tx' pre post s e evs hup hb hpre hs
  · intro m db tx tx1 e evs hb hE hi
    exact perform_insert_err d m db tx tx1 e evs hb hE hi
  · intro m db tx tx1 tx2 e evs hb hE hi hc
    exact perform_commit_err d m db tx tx1 tx2 e evs hb hE hi hc
  · intro m db tx tx1 tx2 db' evs hb hE hi hc
    exact perform_ok d m db tx tx1 tx2 db' evs hb hE hi hc
  · intro m rest applied db s err ev hm hc hp
    exact normalLoop_perform_err d m rest applied db s err ev hm hc hp
  · intro m rest db s err ev hp
    exact nuclearUp_perform_err d m rest db s err ev hp

/-- C3 witness: each failure mode and the success mode, on the test driver. -/
theorem C3_perform_transactional_witness :
    (Migration.new "x").perform testDriver 9 =
      (some { statement := "BEGIN TRANSACTION", error := "begin fail" }, 9, [Ev.beginEv]) ∧
    (((Migration.new "x").with_up "ok1").with_up "BOOM").perform testDriver 0 =
      (some { statement := "BOOM", error := "boom" }, 0,
        [Ev.beginEv, Ev.execEv "ok1", Ev.execEv "BOOM"]) ∧
    ((Migration.new "dup").with_up "u").perform testDriver 0 =
      (some { statement := "INSERT INTO migrations (name) VALUES ($1)", error := "dup key" },
        0, [Ev.beginEv, Ev.execEv "u", Ev.insertEv "dup"]) ∧
    (((((Migration.new "x").with_up "u").with_up "u").with_up "u").with_up "u").perform
        testDriver 0 =
      (some { statement := "COMMIT TRANSACTION", error := "commit fail" }, 0,
        [Ev.beginEv, Ev.execEv "u", Ev.execEv "u", Ev.execEv "u", Ev.execEv "u",
          Ev.insertEv "x", Ev.commitEv]) ∧
    ((Migration.new "x").with_up "u").perform testDriver 0 =
      (none, 2, [Ev.beginEv, Ev.execEv "u", Ev.insertEv "x", Ev.commitEv]) ∧
    normalLoop testDriver [((Migration.new "x").with_up "ok1").with_up "BOOM"] [] 0 =
      (some { statement := "BOOM", error := "boom" }, [], 0, [Op.performOp "x"]) ∧
    nuclearUp testDriver [((Migration.new "x").with_up "ok1").with_up "BOOM"] 0 =
      (some { statement := "BOOM", error := "boom" }, 0, [Op.performOp "x"]) :=
  ⟨(C3_perform_transactional testDriver).1 (Migration.new "x") 9 "begin fail" rfl,
   (C3_perform_transactional testDriver).2.1
     (((Migration.new "x").with_up "ok1").with_up "BOOM") 0 0 1 ["ok1"] [] "BOOM" "boom"
     [Ev.execEv "ok1"] rfl rfl rfl rfl,
   (C3_perform_transactional testDriver).2.2.1 ((Migration.new "dup").with_up "u") 0 0 1
     "dup key" [Ev.execEv "u"] rfl rfl rfl,
   (C3_perform_transactional testDriver).2.2.2.1
     (((((Migration.new "x").with_up "u").with_up "u").with_up "u").with_up "u") 0 0 4 5
     "commit fail" [Ev.execEv "u", Ev.execEv "u", Ev.execEv "u", Ev.execEv "u"]
     rfl rfl rfl rfl,
   (C3_perform_transactional testDriver).2.2.2.2.1 ((Migration.new "x").with_up "u")
     0 0 1 2 2 [Ev.execEv "u"] rfl rfl rfl rfl,
   (C3_perform_transactional testDriver).2.2.2.2.2.1
     (((Migration.new "x").with_up "ok1").with_up "BOOM") [] [] 0 0
     { statement := "BOOM", error := "boom" }
     [Ev.beginEv, Ev.execEv "ok1", Ev.execEv "BOOM"] (by decide) (by decide) (by decide),
   (C3_perform_transactional testDriver).2.2.2.2.2.2
     (((Migration.new "x").with_up "ok1").with_up "BOOM") [] 0 0
     { statement := "BOOM", error := "boom" }
     [Ev.beginEv, Ev.execEv "ok1", Ev.execEv "BOOM"] (by decide)⟩

/-- C5: `run_all` always runs the fixed bootstrap migration prepended to the
supplied list (order preserved) over the tolerantly-read applied set; on a
fresh database with no supplied migrations it performs exactly the bootstrap
migration, ending with the ledger table present and containing exactly the
one record `"initial"`. -/
theorem C5_bootstrap_prepended :
    (∀ {σ : Type} (d : Driver σ) (supplied : List Migration) (db : σ),
      Migration.run_all d supplied db =
        runFromApplied d (migration_0_initial.migration :: supplied) (appliedInit d db) db) ∧
    Migration.run_all pgDriver [] freshDb =
      (none, [], { hasTable := true, ledger := [migration_0_initial.NAME], log := [] },
        [Op.performOp migration_0_initial.NAME]) := by
  exact ⟨fun d supplied db => rfl, by decide⟩

lemma initial_mode : migration_0_initial.migration.mode = Mode.Stable := rfl

lemma initial_name : migration_0_initial.migration.name = migration_0_initial.NAME := rfl

/-- On the in-memory driver, statements that are not the runner's own
CREATE/DROP of the ledger table always succeed and only append to the log. -/
lemma pg_execStmts_benign :
    ∀ (ss : List String) (db : MemDb),
      (∀ s ∈ ss, s ≠ migration_0_initial.createTableStmt ∧
        s ≠ migration_0_initial.dropTableStmt) →
      execStmtsTr pgDriver ss db =
        (none, { db with log := db.log ++ ss }, ss.map Ev.execEv) := by
  intro ss
  induction ss with
  | nil => intro db hben; simp [execStmtsTr]
  | cons s rest ih =>
    intro db hben
    obtain ⟨hs1, hs2⟩ := hben s (by simp)
    have hx : pgDriver.exec s db = .ok { db with log := db.log ++ [s] } := by
      simp [pgDriver, hs1, hs2]
    have hrec := ih { db with log := db.log ++ [s] }
      (fun x hx => hben x (List.mem_cons_of_mem s hx))
    simp only [execStmtsTr, hx, hrec]
    simp

/-- A successful `perform` of a ledger-untouching migration on the in-memory
driver requires the ledger table to exist and the name to be new, and ends
with exactly that name appended to the ledger and the `up` statements
appended to the log. -/
lemma pg_perform_benign_inv (m : Migration) (db db' : MemDb) (t : List Ev)
    (hben : ∀ s ∈ m.up, s ≠ migration_0_initial.createTableStmt ∧
      s ≠ migration_0_initial.dropTableStmt)
    (h : m.perform pgDriver db = (none, db', t)) :
    db.hasTable = true ∧ db.ledger.contains m.name = false ∧
      db' = { hasTable := true, ledger := db.ledger ++ [m.name], log := db.log ++ m.up } := by
  have hbegin : pgDriver.begin db = .ok db := rfl
  have hE := pg_execStmts_benign m.up db hben
  simp only [Migration.perform, hbegin, hE] at h
  cases hT : db.hasTable with
  | false =>
    have hins : pgDriver.insertName m.name { db with log := db.log ++ m.up } =
        .error "relation migrations does not exist" := by
      simp [pgDriver, hT]
    rw [hins] at h
    simp at h
  | true =>
    cases hC : db.ledger.contains m.name with
    | true =>
      have hC2 : m.name ∈ db.ledger := by simpa using hC
      have hins : pgDriver.insertName m.name { db with log := db.log ++ m.up } =
          .error "duplicate key violates unique constraint" := by
        simp [pgDriver, hT, hC2]
      rw [hins] at h
      simp at h
    | false =>
      have hC2 : m.name ∉ db.ledger := by simpa using hC
      have hins : pgDriver.insertName m.name { db with log := db.log ++ m.up } =
          .ok { hasTable := db.hasTable, ledger := db.ledger ++ [m.name],
                log := db.log ++ m.up } := by
        simp [pgDriver, hT, hC2]
      have hcom : pgDriver.commit
          { hasTable := db.hasTable, ledger := db.ledger ++ [m.name],
            log := db.log ++ m.up } =
          .ok { hasTable := db.hasTable, ledger := db.ledger ++ [m.name],
                log := db.log ++ m.up } := rfl
      simp only [hins, hcom] at h
      simp only [Prod.mk.injEq] at h
      obtain ⟨_, hdb, _⟩ := h
      refine ⟨rfl, rfl, ?_⟩
      rw [← hdb, hT]

/-- `perform` of the bootstrap migration on the in-memory driver: it fails if
the ledger table already exists, and otherwise creates the table and records
exactly `"initial"`. -/
lemma pg_perform_initial (db : MemDb) :
    migration_0_initial.migration.perform pgDriver db =
      if db.hasTable then
        (some { statement := migration_0_initial.createTableStmt,
                error := "relation migrations already exists" }, db,
          [Ev.beginEv, Ev.execEv migration_0_initial.createTableStmt])
      else
        (none, { hasTable := true, ledger := [migration_0_initial.NAME], log := db.log },
          [Ev.beginEv, Ev.execEv migration_0_initial.createTableStmt,
            Ev.insertEv migration_0_initial.NAME, Ev.commitEv]) := by
  cases hT : db.hasTable with
  | false =>
    simp [Migration.perform, execStmtsTr, pgDriver, migration_0_initial.migration,
      Migration.new, Migration.mkDefault, Migration.with_up, Migration.with_down, hT]
  | true =>
    simp [Migration.perform, execStmtsTr, pgDriver, migration_0_initial.migration,
      Migration.new, Migration.mkDefault, Migration.with_up, Migration.with_down, hT]

/-- The normal loop over all-`Stable`, ledger-untouching migrations on the
in-memory driver, when it succeeds, keeps the tracking set, keeps the table,
only grows the ledger, and ends with every processed name recorded. -/
lemma pg_normalLoop_stable_inv :
    ∀ (ms : List Migration) (applied : List String) (db : MemDb) (a' : List String)
      (db' : MemDb) (t : List Op),
      (∀ m ∈ ms, m.mode = Mode.Stable ∧ (∀ s ∈ m.up,
        s ≠ migration_0_initial.createTableStmt ∧
        s ≠ migration_0_initial.dropTableStmt)) →
      db.hasTable = true →
      (∀ x ∈ applied, x ∈ db.ledger) →
      normalLoop pgDriver ms applied db = (none, a', db', t) →
      a' = applied ∧ db'.hasTable = true ∧
        (∀ x ∈ db.ledger, x ∈ db'.ledger) ∧
        (∀ m ∈ ms, m.name ∈ db'.ledger) := by
  intro ms
  induction ms with
  | nil =>
    intro applied db a' db' t hall hT hsub h
    simp [normalLoop] at h
    obtain ⟨ha, hdb, _⟩ := h
    subst ha
    exact ⟨rfl, by rw [← hdb]; exact hT, by rw [← hdb]; exact fun x hx => hx, by simp⟩
  | cons m rest ih =>
    intro applied db a' db' t hall hT hsub h
    obtain ⟨hmode, hben⟩ := hall m (by simp)
    have hnd : ¬(m.mode = Mode.Debug) := by rw [hmode]; simp
    cases hc : applied.contains m.name with
    | true =>
      have hc2 : m.name ∈ applied := by simpa using hc
      rcases hr : normalLoop pgDriver rest applied db with ⟨rr, ar, sr, tr⟩
      simp only [normalLoop, hnd, if_false, hc, ite_true, hr] at h
      simp only [Prod.mk.injEq] at h
      obtain ⟨hrr, har, hsr, _⟩ := h
      subst hrr; subst har; subst hsr
      obtain ⟨h1, h2, h3, h4⟩ := ih applied db ar sr tr
        (fun x hx => hall x (List.mem_cons_of_mem m hx)) hT hsub hr
      refine ⟨h1, h2, h3, ?_⟩
      intro m' hm'
      rcases List.mem_cons.mp hm' with hq | hq
      · rw [hq]; exact h3 _ (hsub _ hc2)
      · exact h4 m' hq
    | false =>
      rcases hp : m.perform pgDriver db with ⟨rp, sp, evp⟩
      cases rp with
      | some err =>
        simp only [normalLoop, hnd, if_false, hc, Bool.false_eq_true, ite_false, hp] at h
        simp at h
      | none =>
        obtain ⟨_, _, hsp⟩ := pg_perform_benign_inv m db sp evp hben hp
        rcases hr : normalLoop pgDriver rest applied sp with ⟨rr, ar, sr, tr⟩
        simp only [normalLoop, hnd, if_false, hc, Bool.false_eq_true, ite_false,
          hp, hr] at h
        simp only [Prod.mk.injEq] at h
        obtain ⟨hrr, har, hsr, _⟩ := h
        subst hrr; subst har; subst hsr
        obtain ⟨h1, h2, h3, h4⟩ := ih applied sp ar sr tr
          (fun x hx => hall x (List.mem_cons_of_mem m hx))
          (by rw [hsp]) (fun x hx => by rw [hsp]; simp; exact Or.inl (hsub x hx)) hr
        refine ⟨h1, h2, ?_, ?_⟩
        · intro x hx
          exact h3 x (by rw [hsp]; simp; exact Or.inl hx)
        · intro m' hm'
          rcases List.mem_cons.mp hm' with hq | hq
          · rw [hq]; exact h3 _ (by rw [hsp]; simp)
          · exact h4 m' hq

/-- When every migration is recorded as applied and none is in `Debug` mode,
the normal loop does nothing at all. -/
lemma normalLoop_all_applied {σ : Type} (d : Driver σ) :
    ∀ (ms : List Migration) (applied : List String) (db : σ),
      (∀ m ∈ ms, m.mode ≠ Mode.Debug ∧ applied.contains m.name = true) →
      normalLoop d ms applied db = (none, applied, db, []) := by
  intro ms
  induction ms with
  | nil => intro applied db hall; simp [normalLoop]
  | cons m rest ih =>
    intro applied db hall
    obtain ⟨hmode, hc⟩ := hall m (by simp)
    have hc2 : m.name ∈ applied := by simpa using hc
    have hrec := ih applied db (fun x hx => hall x (List.mem_cons_of_mem m hx))
    simp [normalLoop, hmode, hc2, hrec]

/-- One step of the normal loop for a migration that is not in `Debug` mode:
skip it when recorded, otherwise perform it. -/
lemma normalLoop_step_notDebug {σ : Type} (d : Driver σ) (m : Migration)
    (rest : List Migration) (applied : List String) (db : σ)
    (hm : m.mode ≠ Mode.Debug) :
    normalLoop d (m :: rest) applied db =
      if applied.contains m.name then normalLoop d rest applied db
      else
        match m.perform d db with
        | (some e, s, _) => (some e, applied, s, [Op.performOp m.name])
        | (none, db2, _) =>
          match normalLoop d rest applied db2 with
          | (r, a, s, t) => (r, a, s, Op.performOp m.name :: t) := by
  by_cases hc : applied.contains m.name = true
  · simp [normalLoop, hm, hc]
  · rcases hp : m.perform d db with ⟨rp, sp, evp⟩
    cases rp with
    | some err => simp [normalLoop, hm, hc, hp]
    | none => simp [normalLoop, hm, hc, hp]

set_option maxRecDepth 8192 in
/-- C7: for a list of all-`Stable` migrations with distinct names whose
statements do not touch the ledger table itself, a second `run_all` right
after a successful one is a no-op: every name is found in the applied set,
so no undo or apply operation is issued, the database state is unchanged,
and the returned set is exactly the ledger content. -/
theorem C7_rerun_noop (supplied : List Migration) (db0 : MemDb) (a1 : List String)
    (db1 : MemDb) (t1 : List Op)
    (hmode : ∀ m ∈ supplied, m.mode = Mode.Stable)
    (hben : ∀ m ∈ supplied, ∀ s ∈ m.up,
      s ≠ migration_0_initial.createTableStmt ∧ s ≠ migration_0_initial.dropTableStmt)
    (hnd : ((migration_0_initial.migration :: supplied).map Migration.name).Nodup)
    (h1 : Migration.run_all pgDriver supplied db0 = (none, a1, db1, t1)) :
    Migration.run_all pgDriver supplied db1 = (none, db1.ledger, db1, []) := by
  have hany : ((migration_0_initial.migration :: supplied).any
      fun m => decide (m.mode = Mode.NuclearDebug)) = false := by
    rw [List.any_eq_false]
    intro m hm
    rcases List.mem_cons.mp hm with hq | hq
    · rw [hq]; decide
    · have := hmode m hq; simp [this]
  have hrw1 : Migration.run_all pgDriver supplied db0 =
      normalLoop pgDriver (migration_0_initial.migration :: supplied)
        (appliedInit pgDriver db0) db0 := by
    have hdef : Migration.run_all pgDriver supplied db0 =
        runFromApplied pgDriver (migration_0_initial.migration :: supplied)
          (appliedInit pgDriver db0) db0 := rfl
    rw [hdef]
    simp [runFromApplied, hany]
  rw [hrw1] at h1
  have hallstable : ∀ m ∈ supplied, m.mode = Mode.Stable ∧ (∀ s ∈ m.up,
      s ≠ migration_0_initial.createTableStmt ∧
      s ≠ migration_0_initial.dropTableStmt) :=
    fun m hm => ⟨hmode m hm, hben m hm⟩
  have hinv : db1.hasTable = true ∧
      ∀ m ∈ migration_0_initial.migration :: supplied, m.name ∈ db1.ledger := by
    have hstep := fun (applied : List String) =>
      normalLoop_step_notDebug pgDriver migration_0_initial.migration supplied applied
        db0 (by rw [initial_mode]; simp)
    cases hT0 : db0.hasTable with
    | false =>
      have happ : appliedInit pgDriver db0 = [] := by simp [appliedInit, pgDriver, hT0]
      rw [happ] at h1
      have hperf := pg_perform_initial db0
      rw [if_neg (by simp [hT0])] at hperf
      rw [hstep [], if_neg (by decide), hperf] at h1
      rcases hr : normalLoop pgDriver supplied []
          { hasTable := true, ledger := [migration_0_initial.NAME], log := db0.log }
          with ⟨rr, ar, sr, tr⟩
      simp only [hr, Prod.mk.injEq] at h1
      obtain ⟨hrr, _, hsr, _⟩ := h1
      subst hrr; subst hsr
      obtain ⟨ha1, hT1, hgrow, hnames⟩ := pg_normalLoop_stable_inv supplied []
        { hasTable := true, ledger := [migration_0_initial.NAME], log := db0.log }
        ar sr tr hallstable rfl (by simp) hr
      refine ⟨hT1, ?_⟩
      intro m hm
      rcases List.mem_cons.mp hm with hq | hq
      · rw [hq, initial_name]
        exact hgrow migration_0_initial.NAME (by simp)
      · exact hnames m hq
    | true =>
      have happ : appliedInit pgDriver db0 = db0.ledger := by
        simp [appliedInit, pgDriver, hT0]
      rw [happ] at h1
      cases hcI : db0.ledger.contains migration_0_initial.migration.name with
      | false =>
        have hperf := pg_perform_initial db0
        rw [if_pos hT0] at hperf
        rw [hstep db0.ledger, if_neg (by simpa using hcI), hperf] at h1
        simp at h1
      | true =>
        rw [hstep db0.ledger, if_pos hcI] at h1
        rcases hr : normalLoop pgDriver supplied db0.ledger db0 with ⟨rr, ar, sr, tr⟩
        rw [hr] at h1
        simp only [Prod.mk.injEq] at h1
        obtain ⟨hrr, _, hsr, _⟩ := h1
        subst hrr; subst hsr
        obtain ⟨ha1, hT1, hgrow, hnames⟩ := pg_normalLoop_stable_inv supplied
          db0.ledger db0 ar sr tr hallstable hT0 (fun x hx => hx) hr
        refine ⟨hT1, ?_⟩
        intro m hm
        rcases List.mem_cons.mp hm with hq | hq
        · rw [hq]; exact hgrow _ (by simpa using hcI)
        · exact hnames m hq
  obtain ⟨hT1, hnames⟩ := hinv
  have happ2 : appliedInit pgDriver db1 = db1.ledger := by
    simp [appliedInit, pgDriver, hT1]
  have hskip := normalLoop_all_applied pgDriver
    (migration_0_initial.migration :: supplied) db1.ledger db1 ?_
  · have hdef2 : Migration.run_all pgDriver supplied db1 =
        runFromApplied pgDriver (migration_0_initial.migration :: supplied)
          (appliedInit pgDriver db1) db1 := rfl
    rw [hdef2, happ2]
    simp [runFromApplied, hany, hskip]
  · intro m hm
    refine ⟨?_, by simpa using hnames m hm⟩
    rcases List.mem_cons.mp hm with hq | hq
    · rw [hq, initial_mode]; simp
    · rw [hmode m hq]; simp

/-- C7 witness: after a successful run over one stable migration from a
fresh database, re-running changes nothing and issues no operations. -/
theorem C7_rerun_noop_witness :
    Migration.run_all pgDriver [(Migration.new "A").with_up "CREATE TABLE t"]
        { hasTable := true, ledger := ["initial", "A"], log := ["CREATE TABLE t"] } =
      (none, ["initial", "A"],
        { hasTable := true, ledger := ["initial", "A"], log := ["CREATE TABLE t"] }, []) :=
  C7_rerun_noop [(Migration.new "A").with_up "CREATE TABLE t"] freshDb []
    { hasTable := true, ledger := ["initial", "A"], log := ["CREATE TABLE t"] }
    [Op.performOp "initial", Op.performOp "A"]
    (by decide) (by decide) (by decide) (by decide)
